import Mathlib

/-!
Verification of the oas benchmarking and testing tool.

This file gives a shallow embedding, in Lean 4, of the core data model and
algorithms of the oas repository (package benchmarker, package generator,
package tester, package models), and proves properties stated about them.

Modelling conventions used throughout:
* Go `time.Duration` (an int64 of nanoseconds) is modelled as `Int`.
* Go `float64` is modelled as `ℚ`; conversions `int(x)` and
  `time.Duration(x)` from floats are modelled by truncation toward zero.
* Go integer division on int64 values is `Int.tdiv` (truncation toward 0).
* Go `map[int]int` is modelled as an association list updated in place.
* Randomness (`rand.Rand`) is modelled by an oracle indexed by a call
  counter that is threaded through the computation; theorems constrain the
  oracle by the contract of the corresponding `math/rand` method.
* The HTTP transport and the OpenAPI document are modelled as oracles
  giving the per-request outcomes and the per-operation metadata.
-/

namespace Oas

/-- Truncation toward zero of a rational, the semantics of Go conversions
such as `int(x)` and `time.Duration(x)` applied to a float64 value. -/
def goTrunc (q : ℚ) : Int := if q < 0 then ⌈q⌉ else ⌊q⌋

/-- Semantics of Go `strings.Contains(s, sub)`: `sub` occurs as a
contiguous substring of `s`. -/
def goContains (s sub : String) : Bool := decide (sub.data <:+: s.data)

/-- Semantics of Go `strings.Split(s, ";")[0]`: the prefix of `s` before
the first semicolon (all of `s` when no semicolon occurs). -/
def goSplitSemiHead (s : String) : String := String.mk (s.data.takeWhile (· ≠ ';'))

/-! ## Benchmarker data model (internal/benchmarker, internal/models) -/

/-- Embedding of `requestResult` (benchmarker.go): the outcome of a single
request attempt. `duration` is in nanoseconds; an empty `error` string
marks a success. -/
structure GoRequestResult where
  duration : Int
  statusCode : Nat
  error : String
deriving Repr, DecidableEq

/-- Embedding of `models.BenchmarkResult`. Times are nanoseconds, rates
are rationals. The Go `StatusCodes map[int]int` is an association list. -/
structure BenchmarkResult where
  path : String := ""
  method : String := ""
  operationID : String := ""
  iterations : Nat := 0
  concurrency : Nat := 0
  warmupRuns : Nat := 0
  minTime : Int := 0
  maxTime : Int := 0
  avgTime : Int := 0
  p50Time : Int := 0
  p90Time : Int := 0
  p99Time : Int := 0
  requestsPerSec : ℚ := 0
  totalDuration : Int := 0
  successCount : Nat := 0
  errorCount : Nat := 0
  errorRate : ℚ := 0
  statusCodes : List (Nat × Nat) := []
  sampleErrors : List String := []
deriving Repr, DecidableEq

/-- Embedding of `models.BenchmarkSummary`. -/
structure BenchmarkSummary where
  totalEndpoints : Nat := 0
  iterations : Nat := 0
  concurrency : Nat := 0
  warmupRuns : Nat := 0
  overallMinTime : Int := 0
  overallMaxTime : Int := 0
  overallAvgTime : Int := 0
  totalRequests : Nat := 0
  totalSuccesses : Nat := 0
  totalErrors : Nat := 0
  overallErrorRate : ℚ := 0
  totalDuration : Int := 0
  overallReqsPerSec : ℚ := 0
  results : List BenchmarkResult := []
deriving Repr, DecidableEq

/-- Embedding of `models.Operation`. -/
structure Operation where
  path : String := ""
  method : String := ""
  operationID : String := ""
  tags : List String := []
  serverURL : String := ""
  fullPath : String := ""
deriving Repr, DecidableEq

/-- Embedding of benchmarker `Config`. The rate limit, timeout and
keep-alive switch only affect transport behaviour, which is behind the
request oracle; they are carried for completeness. -/
structure Config where
  iterations : Nat := 100
  concurrency : Nat := 1
  warmupRuns : Nat := 5
  rateLimit : ℚ := 0
  timeout : Int := 30000000000
  disableKeepAlive : Bool := false
deriving Repr, DecidableEq

/-- Embedding of `models.BenchmarkSummary.AddResult`: append a result and
update the aggregate counters, the min and max times, the overall error
rate, and the weighted overall average latency. -/
def BenchmarkSummary.addResult (s : BenchmarkSummary) (result : BenchmarkResult) :
    BenchmarkSummary :=
  let s := { s with results := s.results ++ [result] }
  let s := { s with totalEndpoints := s.results.length,
                    totalRequests := s.totalRequests + result.iterations,
                    totalSuccesses := s.totalSuccesses + result.successCount,
                    totalErrors := s.totalErrors + result.errorCount }
  let s := if s.overallMinTime = 0 ∨ result.minTime < s.overallMinTime then
             { s with overallMinTime := result.minTime } else s
  let s := if result.maxTime > s.overallMaxTime then
             { s with overallMaxTime := result.maxTime } else s
  let s := if s.totalRequests > 0 then
             { s with overallErrorRate := (s.totalErrors : ℚ) / (s.totalRequests : ℚ) * 100 }
           else s
  let totalWeightedAvg := s.results.foldl (fun acc r => acc + r.avgTime * (r.iterations : Int)) (0 : Int)
  let totalWeight : Nat := s.results.foldl (fun acc r => acc + r.iterations) (0 : Nat)
  if totalWeight > 0 then
    { s with overallAvgTime := Int.tdiv totalWeightedAvg (totalWeight : Int) }
  else s

/-- Embedding of `models.BenchmarkSummary.Finalize`. -/
def BenchmarkSummary.finalize (s : BenchmarkSummary) (totalDuration : Int) :
    BenchmarkSummary :=
  let s := { s with totalDuration := totalDuration }
  if totalDuration > 0 then
    { s with overallReqsPerSec := (s.totalRequests : ℚ) / ((totalDuration : ℚ) / 1000000000) }
  else s

/-- Embedding of `percentile` (benchmarker.go): the p-th percentile of a
sorted duration slice by linear interpolation, with `p ≤ 0` giving the
first and `p ≥ 100` the last element. Go `int(index)` and
`time.Duration(float64)` truncate toward zero. -/
def percentile (sorted : List Int) (p : Int) : Int :=
  if sorted.length = 0 then 0
  else if p ≤ 0 then sorted.headI
  else if p ≥ 100 then sorted.getLastI
  else
    let index : ℚ := ((sorted.length : ℚ) - 1) * (p : ℚ) / 100
    let lower : Int := goTrunc index
    let upper : Int := lower + 1
    if upper ≥ (sorted.length : Int) then sorted.getI lower.toNat
    else
      let weight : ℚ := index - (lower : ℚ)
      goTrunc ((sorted.getI lower.toNat : ℚ) * (1 - weight)
        + (sorted.getI upper.toNat : ℚ) * weight)

/-- Increment of the Go map update `result.StatusCodes[r.StatusCode]++` on
the association-list model. -/
def bumpStatus : List (Nat × Nat) → Nat → List (Nat × Nat)
  | [], code => [(code, 1)]
  | (c, n) :: rest, code =>
      if c = code then (c, n + 1) :: rest else (c, n) :: bumpStatus rest code

/-- State threaded through the aggregation loop of `processResults`: the
result under construction, the collected success durations, their running
sum, and the set of already-sampled error strings. -/
structure ProcessAcc where
  result : BenchmarkResult
  durations : List Int
  totalDuration : Int
  errorSet : List String

/-- Body of the `for _, r := range rawResults` loop of `processResults`. -/
def processStep (acc : ProcessAcc) (r : GoRequestResult) : ProcessAcc :=
  let acc :=
    if r.error ≠ "" then
      let result := { acc.result with errorCount := acc.result.errorCount + 1 }
      if result.sampleErrors.length < 5 ∧ r.error ∉ acc.errorSet then
        { acc with
          result := { result with sampleErrors := result.sampleErrors ++ [r.error] }
          errorSet := acc.errorSet ++ [r.error] }
      else { acc with result := result }
    else
      { acc with
        result := { acc.result with successCount := acc.result.successCount + 1 }
        durations := acc.durations ++ [r.duration]
        totalDuration := acc.totalDuration + r.duration }
  if r.statusCode > 0 then
    { acc with result := { acc.result with statusCodes := bumpStatus acc.result.statusCodes r.statusCode } }
  else acc

/-- Embedding of `processResults` (benchmarker.go). The Go
`sort.Slice(durations, less)` sorts the successful durations ascending;
since a sorted permutation of an integer list is unique, it is modelled by
insertion sort. -/
def processResults (result : BenchmarkResult) (rawResults : List GoRequestResult) :
    BenchmarkResult :=
  if rawResults.length = 0 then result
  else
    let acc := rawResults.foldl processStep
      ⟨result, [], 0, []⟩
    let result := acc.result
    let durations := acc.durations
    let result :=
      if durations.length > 0 then
        let sorted := durations.insertionSort (· ≤ ·)
        { result with
          minTime := sorted.headI
          maxTime := sorted.getLastI
          avgTime := Int.tdiv acc.totalDuration (durations.length : Int)
          p50Time := percentile sorted 50
          p90Time := percentile sorted 90
          p99Time := percentile sorted 99 }
      else result
    let result :=
      if result.totalDuration > 0 then
        { result with requestsPerSec :=
            (result.iterations : ℚ) / ((result.totalDuration : ℚ) / 1000000000) }
      else result
    if result.iterations > 0 then
      { result with errorRate := (result.errorCount : ℚ) / (result.iterations : ℚ) * 100 }
    else result

/-! ## Benchmark execution (benchmarker.go)

The HTTP transport and the OpenAPI document are not part of this core; they
are modelled by `BenchEnv`, an oracle giving, per operation, the outcome of
the operation-detail fetch, of the sample request build, of each measured
request, and the elapsed wall-clock times. -/

/-- Embedding of `progressInterval := max(1, b.config.Iterations/20)` in
`runConcurrentBenchmark`; Go integer division of non-negative ints is
`Nat` division. -/
def progressInterval (iterations : Nat) : Nat := max 1 (iterations / 20)

/-- Payload of an `EventBenchmarkProgress` event, restricted to the fields
computed by the worker loop from the shared counters. -/
structure BenchProgressEvent where
  progress : Nat
  runningAvg : Int
  errorCount : Nat
deriving Repr, DecidableEq

/-- Serialisation of the measuring loop of `runConcurrentBenchmark`: the
mutex serialises the counter updates, so the observed completed counts are
exactly 1, 2, ... in the serialisation order, each job adding its duration
and error flag to the shared counters; a progress event is emitted exactly
when the observed completed count is a multiple of the interval. Returns
the emitted progress events in order. -/
def measureLoop (interval : Nat) (completed : Nat) (totalDuration : Int)
    (errorCount : Nat) : List GoRequestResult → List BenchProgressEvent
  | [] => []
  | r :: rest =>
      let currentCompleted := completed + 1
      let currentTotalDuration := totalDuration + r.duration
      let currentErrorCount := errorCount + (if r.error ≠ "" then 1 else 0)
      let tail := measureLoop interval currentCompleted currentTotalDuration
        currentErrorCount rest
      if currentCompleted % interval = 0 then
        { progress := currentCompleted
          runningAvg := Int.tdiv currentTotalDuration (currentCompleted : Int)
          errorCount := currentErrorCount } :: tail
      else tail

/-- Oracle for the external collaborators of the benchmarker: the parser
(operation details), the request builder (sample build), and the HTTP
transport (per-iteration request outcomes and elapsed times). A `some`
message in `detailsErr` or `buildErr` is the error returned by the
corresponding call. -/
structure BenchEnv where
  detailsErr : Operation → Option String
  buildErr : Operation → Option String
  exec : Operation → Nat → GoRequestResult
  elapsed : Operation → Int
  runElapsed : Int

/-- Initial `BenchmarkResult` constructed at the top of
`BenchmarkOperation` before any external call. -/
def initResult (cfg : Config) (op : Operation) : BenchmarkResult :=
  { path := op.path
    method := op.method
    operationID := op.operationID
    iterations := cfg.iterations
    concurrency := cfg.concurrency
    warmupRuns := cfg.warmupRuns
    statusCodes := [] }

/-- Embedding of `runConcurrentBenchmark` restricted to its observable
result: a non-cancelled run writes `results[i] = executeRequest(...)` for
every job index `i < Iterations`. -/
def runConcurrentBenchmark (cfg : Config) (env : BenchEnv) (op : Operation) :
    List GoRequestResult :=
  (List.range cfg.iterations).map (env.exec op)

/-- Embedding of `BenchmarkOperation` for a non-cancelled run: fetch the
operation details, build a sample request (each failure returns the
initial result together with the wrapped error), run the measured phase,
record its wall-clock duration and process the raw results. The warmup
phase and the event callback do not affect the returned result. -/
def benchmarkOperation (cfg : Config) (env : BenchEnv) (op : Operation) :
    BenchmarkResult × Option String :=
  let result := initResult cfg op
  match env.detailsErr op with
  | some e => (result, some ("failed to get operation details: " ++ e))
  | none =>
    match env.buildErr op with
    | some e => (result, some ("failed to build request: " ++ e))
    | none =>
      let results := runConcurrentBenchmark cfg env op
      let result := { result with totalDuration := env.elapsed op }
      (processResults result results, none)

/-- Per-operation result as appended by the loop body of
`BenchmarkOperations`: on an error from `BenchmarkOperation` the result is
synthesised with the error sampled, every iteration counted as an error
and a 100 percent error rate. -/
def benchmarkOperationsEntry (cfg : Config) (env : BenchEnv) (op : Operation) :
    BenchmarkResult :=
  match benchmarkOperation cfg env op with
  | (result, some e) =>
      { result with
        sampleErrors := result.sampleErrors ++ [e]
        errorCount := result.iterations
        errorRate := 100 }
  | (result, none) => result

/-- Embedding of `BenchmarkOperations` for a non-cancelled run: every
operation is benchmarked in input order, failures are synthesised by
`benchmarkOperationsEntry`, and the summary is finalised with the total
wall-clock duration. (The `break` in the cancellation `select` only
leaves the `select`, never the loop, so all operations are visited.) -/
def benchmarkOperations (cfg : Config) (env : BenchEnv) (ops : List Operation) :
    BenchmarkSummary :=
  let summary : BenchmarkSummary :=
    { iterations := cfg.iterations
      concurrency := cfg.concurrency
      warmupRuns := cfg.warmupRuns
      results := [] }
  let summary := ops.foldl
    (fun s op => s.addResult (benchmarkOperationsEntry cfg env op)) summary
  summary.finalize env.runElapsed

/-! ## Schema value generator (internal/generator)

Values decoded from or serialised to JSON (Go `interface\x7b\x7d` holding
`map[string]interface\x7b\x7d`, `[]interface\x7b\x7d`, `string`, `float64`,
`bool` or `nil`) are modelled by the tagged union `Json`; Go numeric values
(`float64`, `int`, `int32`, `int64`, `float32`) all map to `Json.num`. -/

/-- Tagged union for dynamically typed values. -/
inductive Json where
  | null
  | bool (b : Bool)
  | num (q : ℚ)
  | str (s : String)
  | arr (items : List Json)
  | obj (fields : List (String × Json))

/-- Fields of `base.Schema` read by the embedded functions, parametrised
by the type of sub-schemas. `exampleVal` and `defaultVal` embed the Go
fields `Example` and `Default` (renamed as Lean reserves those words);
`enum` holds the `Value` of each `yaml.Node`, with `none` for a nil node;
`items` is `some` exactly when `Items` is a schema proxy resolving to a
non-nil schema; each entry of `properties` carries the resolved property
schema, `none` when the proxy resolves to nil. -/
structure SchemaF (σ : Type) where
  exampleVal : Option Json := none
  defaultVal : Option Json := none
  type : List String := []
  format : String := ""
  enum : List (Option String) := []
  pattern : String := ""
  minLength : Option Int := none
  maxLength : Option Int := none
  minimum : Option ℚ := none
  maximum : Option ℚ := none
  minItems : Option Int := none
  maxItems : Option Int := none
  items : Option σ := none
  properties : List (String × Option σ) := []
  required : List String := []

/-- Embedding of `base.Schema` (recursive through `items` and
`properties`). -/
inductive Schema where
  | mk (fields : SchemaF Schema)

/-- Projection to the field record of a schema. -/
def Schema.fields : Schema → SchemaF Schema
  | .mk f => f

/-- Oracle for the `math/rand` source owned by a `Generator`: the value of
the k-th random-method call of the run. Theorems constrain each method by
its `math/rand` contract (for example `intn k n < n`). -/
structure Rng where
  intn : Nat → Nat → Nat
  float64 : Nat → ℚ
  float32 : Nat → ℚ
  int31 : Nat → Int
  int63 : Nat → Int

/-- Environment of a generation call: the random oracle plus the wall
clock formatted by `time.Now().Format(...)` for the date formats. -/
structure GenEnv where
  rng : Rng
  nowDate : String
  nowDateTime : String

/-- Embedding of `generateFromFormat` (generator.go). The second
component is the updated random-call counter: the numeric formats consume
one random draw, all other formats none. -/
def generateFromFormat (env : GenEnv) (format : String) (ctr : Nat) : Json × Nat :=
  match format with
  | "date" => (.str env.nowDate, ctr)
  | "date-time" => (.str env.nowDateTime, ctr)
  | "email" => (.str "test@example.com", ctr)
  | "uri" => (.str "https://example.com", ctr)
  | "uuid" => (.str "123e4567-e89b-12d3-a456-426614174000", ctr)
  | "int32" => (.num ((env.rng.int31 ctr : ℚ)), ctr + 1)
  | "int64" => (.num ((env.rng.int63 ctr : ℚ)), ctr + 1)
  | "float" => (.num (env.rng.float32 ctr), ctr + 1)
  | "double" => (.num (env.rng.float64 ctr), ctr + 1)
  | _ => (.str "test-value", ctr)

/-- Tail of `generateString` after the format dispatch: the enum, pattern
and length-constraint steps. `rng.Intn(n)` is drawn exactly when
`maxLength > minLength`, with `n = maxLength - minLength + 1`. -/
def generateStringTail (env : GenEnv) (schema : Schema) (ctr : Nat) : String × Nat :=
  match schema.fields.enum with
  | some v :: _ => (v, ctr)
  | _ =>
    if schema.fields.pattern ≠ "" then ("test-string", ctr)
    else
      let minLength : Int := match schema.fields.minLength with | some m => m | none => 0
      let maxLength : Int := match schema.fields.maxLength with | some m => m | none => 10
      let (length, ctr) :=
        if maxLength > minLength then
          (minLength + (env.rng.intn ctr (maxLength - minLength + 1).toNat : Int), ctr + 1)
        else (minLength, ctr)
      let length := if length = 0 then 5 else length
      (String.mk (List.replicate length.toNat 'a'), ctr)

/-- Embedding of `generateString` (generator.go): when a format is set its
generated value is returned if it is a string, otherwise (and when no
format is set) control falls through to `generateStringTail`. -/
def generateString (env : GenEnv) (schema : Schema) (ctr : Nat) : String × Nat :=
  if schema.fields.format ≠ "" then
    let (formatted, c) := generateFromFormat env schema.fields.format ctr
    match formatted with
    | .str s => (s, c)
    | _ => generateStringTail env schema c
  else generateStringTail env schema ctr

/-- Embedding of `generateNumber` (generator.go): bounds default to 0 and
100, are overridden by declared `Minimum` and `Maximum`, the value is
`min + Float64()*(max-min)`, truncated to an integer for integer-typed
schemas. -/
def generateNumber (env : GenEnv) (schema : Schema) (ctr : Nat) : Json × Nat :=
  let isInt := schema.fields.type.head? = some "integer"
  let lo : ℚ := match schema.fields.minimum with | some m => m | none => 0
  let hi : ℚ := match schema.fields.maximum with | some m => m | none => 100
  let value := lo + env.rng.float64 ctr * (hi - lo)
  (if isInt then .num ((goTrunc value : ℤ) : ℚ) else .num value, ctr + 1)

mutual

/-- Embedding of `Generator.GenerateValue` (generator.go). The first
component is the Go pair `(interface\x7b\x7d, error)`: an error is
returned exactly for a nil schema; otherwise a declared example, then a
declared default, then the rule for the first declared type, then the
format rule, then the empty string apply, in that order. An unknown first
type falls through the Go type switch to the format check. The second
component is the updated random-call counter. -/
def GenerateValue (env : GenEnv) (schema : Option Schema) (ctr : Nat) :
    Except String Json × Nat :=
  match schema with
  | none => (.error "schema is nil", ctr)
  | some s =>
    match s.fields.exampleVal with
    | some e => (.ok e, ctr)
    | none =>
      match s.fields.defaultVal with
      | some d => (.ok d, ctr)
      | none =>
        match s.fields.type.head? with
        | some "string" =>
            let (v, c) := generateString env s ctr
            (.ok (.str v), c)
        | some "integer" => let (v, c) := generateNumber env s ctr; (.ok v, c)
        | some "number" => let (v, c) := generateNumber env s ctr; (.ok v, c)
        | some "boolean" => (.ok (.bool true), ctr)
        | some "array" => let (v, c) := generateArray env s ctr; (.ok v, c)
        | some "object" => let (v, c) := generateObject env s ctr; (.ok v, c)
        | _ =>
            if s.fields.format ≠ "" then
              let (v, c) := generateFromFormat env s.fields.format ctr
              (.ok v, c)
            else (.ok (.str ""), ctr)
termination_by (sizeOf schema, 0)

/-- Embedding of `generateArray` (generator.go): the item count is drawn
from `[minItems, maxItems]` (defaults 0 and 3, floor 1 when the computed
count is 0); each slot is generated from the resolved item schema, or is
the literal string "item" when none resolves. -/
def generateArray (env : GenEnv) (schema : Schema) (ctr : Nat) : Json × Nat :=
  let minItems : Int := match schema.fields.minItems with | some m => m | none => 0
  let maxItems : Int := match schema.fields.maxItems with | some m => m | none => 3
  let (count, ctr) :=
    if maxItems > minItems then
      (minItems + (env.rng.intn ctr (maxItems - minItems + 1).toNat : Int), ctr + 1)
    else (minItems, ctr)
  let count := if count = 0 then 1 else count
  match h : schema.fields.items with
  | some itemSchema =>
      let (vals, c) := genItems env itemSchema count.toNat ctr
      (.arr vals, c)
  | none => (.arr (List.replicate count.toNat (.str "item")), ctr)
termination_by (sizeOf schema, 2)
decreasing_by
  simp_wf
  refine Prod.Lex.left _ _ ?_
  cases schema with
  | mk f =>
    cases f
    simp only [Schema.fields] at h
    subst h
    simp only [Schema.mk.sizeOf_spec, SchemaF.mk.sizeOf_spec, Option.some.sizeOf_spec]
    omega

/-- Loop of `generateArray` over the item slots: each slot calls
`GenerateValue` on the item schema, discarding the (always nil) error as
the Go code does. -/
def genItems (env : GenEnv) (itemSchema : Schema) (count : Nat) (ctr : Nat) :
    List Json × Nat :=
  match count with
  | 0 => ([], ctr)
  | n + 1 =>
      let (r, c) := GenerateValue env (some itemSchema) ctr
      let v := match r with | .ok v => v | .error _ => Json.null
      let (rest, c2) := genItems env itemSchema n c
      (v :: rest, c2)
termination_by (sizeOf itemSchema + 1, count + 1)
decreasing_by
  · simp_wf
    have e : 1 + sizeOf itemSchema = sizeOf itemSchema + 1 := Nat.add_comm _ _
    rw [e]
    exact Prod.Lex.right _ (by omega)
  · exact Prod.Lex.right _ (by omega)

/-- Embedding of `generateObject` (generator.go): generate the declared
properties in declaration order. -/
def generateObject (env : GenEnv) (schema : Schema) (ctr : Nat) : Json × Nat :=
  let (fs, c) := genProps env schema.fields.required schema.fields.properties ctr
  (.obj fs, c)
termination_by (sizeOf schema, 2)
decreasing_by
  simp_wf
  refine Prod.Lex.left _ _ ?_
  cases schema with
  | mk f =>
    cases f
    simp only [Schema.fields, Schema.mk.sizeOf_spec, SchemaF.mk.sizeOf_spec]
    omega

/-- Loop of `generateObject` over the declared properties: a property is
generated when it is required, or else when `Float64() > 0.5` (the draw
happens only for optional properties, mirroring the Go short-circuit);
properties whose schema does not resolve are skipped after the draw. -/
def genProps (env : GenEnv) (required : List String)
    (props : List (String × Option Schema)) (ctr : Nat) :
    List (String × Json) × Nat :=
  match props with
  | [] => ([], ctr)
  | (propName, propSchema) :: rest =>
      let isRequired := required.contains propName
      let (takeProp, ctr) :=
        if isRequired then (true, ctr)
        else (decide (env.rng.float64 ctr > 1/2), ctr + 1)
      if takeProp then
        match propSchema with
        | some ps =>
            let (r, c) := GenerateValue env (some ps) ctr
            let v := match r with | .ok v => v | .error _ => Json.null
            let (restFields, c2) := genProps env required rest c
            ((propName, v) :: restFields, c2)
        | none => genProps env required rest ctr
      else genProps env required rest ctr
termination_by (sizeOf props, 0)

end

/-! ## Response validator (internal/tester/validator.go) -/

/-- Embedding of `models.ValidationError`. -/
structure ValidationError where
  field : String
  message : String
deriving Repr, DecidableEq

/-- Embedding of `v3.MediaType` as read by the validator: only the
(possibly nil) resolved schema is consulted. -/
structure MediaTypeDef where
  schema : Option Schema := none

/-- Embedding of `v3.Response` as read by the validator: the keys of the
(possibly nil) ordered `Headers` map and the (possibly nil) ordered
`Content` map from media-type strings to media types. -/
structure ResponseDef where
  headers : Option (List String) := none
  content : Option (List (String × MediaTypeDef)) := none

/-- Embedding of `v3.Responses`: the ordered `Codes` map (possibly nil)
and the optional `Default` response. -/
structure ResponsesDef where
  codes : Option (List (String × ResponseDef)) := none
  default : Option ResponseDef := none

/-- Embedding of `parser.OperationDetails` as read by the validator. -/
structure OperationDetails where
  path : String := ""
  method : String := ""
  responses : Option ResponsesDef := none

/-- Embedding of `http.Response` as read by the validator: the status
code, the header map, and the JSON decoding of the body (`none` models a
body on which `json.Decoder.Decode` fails). -/
structure HttpResponse where
  statusCode : Nat
  headers : List (String × String) := []
  bodyJson : Option Json := none

/-- Semantics of Go `resp.Header.Get(name)`: the first value stored under
the name, or the empty string when absent. -/
def headerGet (headers : List (String × String)) (name : String) : String :=
  match headers.find? (fun p => p.1 == name) with
  | some p => p.2
  | none => ""

/-- Loop over an ordered response-code map looking for the first pair with
the given key, as in the `for pair := ...; pair = pair.Next()` loops of
`ValidateResponse`. -/
def lookupCode (codes : List (String × ResponseDef)) (key : String) :
    Option ResponseDef :=
  match codes.find? (fun p => p.1 == key) with
  | some p => some p.2
  | none => none

/-- Embedding of `validateJSONSchema` (validator.go): decode failure gives
a single body error; otherwise the coarse kind of the decoded value is
checked against the first declared type, and for object schemas every
required field must be present. -/
def validateJSONSchema (resp : HttpResponse) (schema : Schema) :
    List ValidationError :=
  match resp.bodyJson with
  | none => [{ field := "body", message := "failed to parse JSON response" }]
  | some bodyData =>
    let typeErrors : List ValidationError :=
      match schema.fields.type.head? with
      | some "object" =>
          match bodyData with
          | .obj _ => []
          | _ => [{ field := "body", message := "expected object type, got different type" }]
      | some "array" =>
          match bodyData with
          | .arr _ => []
          | _ => [{ field := "body", message := "expected array type, got different type" }]
      | some "string" =>
          match bodyData with
          | .str _ => []
          | _ => [{ field := "body", message := "expected string type, got different type" }]
      | some "integer" | some "number" =>
          match bodyData with
          | .num _ => []
          | _ => [{ field := "body", message := "expected number type, got different type" }]
      | some "boolean" =>
          match bodyData with
          | .bool _ => []
          | _ => [{ field := "body", message := "expected boolean type, got different type" }]
      | _ => []
    let requiredErrors : List ValidationError :=
      if schema.fields.type.head? = some "object" then
        match bodyData with
        | .obj fs =>
            schema.fields.required.filterMap (fun requiredField =>
              if (fs.find? (fun p => p.1 == requiredField)).isSome then none
              else some { field := "body." ++ requiredField,
                          message := "missing required field: " ++ requiredField })
        | _ => []
      else []
    typeErrors ++ requiredErrors

/-- Response-definition matching of `ValidateResponse` (validator.go,
lines 39-70): first an exact status-code-string match over the ordered
code map, then the declared default response, then a range match on
`statusCode/100` formatted as "Nxx". -/
def matchResponseDef (responses : ResponsesDef) (statusCode : Nat) :
    Option ResponseDef :=
  let statusCodeStr := toString statusCode
  let exact := match responses.codes with
    | some codes => lookupCode codes statusCodeStr
    | none => none
  match exact with
  | some d => some d
  | none =>
    match responses.default with
    | some d => some d
    | none =>
      let statusRange := toString (statusCode / 100) ++ "xx"
      match responses.codes with
      | some codes => lookupCode codes statusRange
      | none => none

/-- Embedding of `Validator.ValidateResponse` (validator.go). The pair
models the Go return values `([]models.ValidationError, error)`; a nil
response or nil operation details are `none` arguments. -/
def ValidateResponse (resp : Option HttpResponse)
    (opDetails : Option OperationDetails) :
    List ValidationError × Option String :=
  match resp with
  | none => ([{ field := "response", message := "response is nil" }], none)
  | some resp =>
    match opDetails with
    | none => ([], none)
    | some od =>
      match od.responses with
      | none => ([], none)
      | some responses =>
        match matchResponseDef responses resp.statusCode with
        | none =>
            ([{ field := "status_code",
                message := "unexpected status code " ++ toString resp.statusCode
                  ++ ", not defined in OpenAPI spec" }], none)
        | some responseDef =>
          let headerErrors : List ValidationError :=
            match responseDef.headers with
            | none => []
            | some hs =>
                hs.filterMap (fun headerName =>
                  if headerGet resp.headers headerName = "" then
                    some { field := "header." ++ headerName,
                           message := "missing required header: " ++ headerName }
                  else none)
          let contentType := headerGet resp.headers "Content-Type"
          let contentErrors : List ValidationError :=
            match responseDef.content with
            | none => []
            | some content =>
              if content.length > 0 then
                let contentTypeMatched :=
                  content.any (fun p => goContains contentType (goSplitSemiHead p.1))
                let ctErrors :=
                  if ¬ contentTypeMatched ∧ contentType ≠ "" then
                    [{ field := "content_type",
                       message := "unexpected content type: " ++ contentType }]
                  else []
                let bodyErrors :=
                  if goContains contentType "json" then
                    let jsonSchema : Option Schema :=
                      match content.find? (fun p => goContains p.1 "json") with
                      | some p => p.2.schema
                      | none => none
                    match jsonSchema with
                    | some schema => validateJSONSchema resp schema
                    | none => []
                  else []
                ctErrors ++ bodyErrors
              else []
          (headerErrors ++ contentErrors, none)

/-! ## Single-shot tester (internal/tester, internal/models) -/

/-- Embedding of `models.TestResult`. -/
structure TestResult where
  path : String := ""
  method : String := ""
  operationID : String := ""
  passed : Bool := false
  error : String := ""
  statusCode : Nat := 0
  responseTime : Int := 0
  validationErrors : List ValidationError := []
deriving Repr, DecidableEq

/-- Embedding of `models.TestSummary`. -/
structure TestSummary where
  totalTests : Nat := 0
  passed : Nat := 0
  failed : Nat := 0
  results : List TestResult := []
deriving Repr, DecidableEq

/-- Embedding of `models.TestSummary.AddResult`: append the result, count
it, and count it as passed or failed. -/
def TestSummary.addResult (s : TestSummary) (result : TestResult) : TestSummary :=
  let s := { s with totalTests := s.totalTests + 1,
                    results := s.results ++ [result] }
  if result.passed then { s with passed := s.passed + 1 }
  else { s with failed := s.failed + 1 }

/-- Embedding of `Tester.TestOperations`: `TestOperation` performs I/O
(detail fetch, request build, HTTP call, validation), so it is an oracle
`runOp` giving the Go pair `(models.TestResult, error)` per operation; the
loop applies the dead error branch and accumulates results with
`AddResult`, starting from the empty summary. -/
def TestOperations (runOp : Operation → TestResult × Option String)
    (ops : List Operation) : TestSummary :=
  ops.foldl
    (fun summary op =>
      let (result, err) := runOp op
      let result :=
        match err with
        | some e => { result with error := "test execution error: " ++ e,
                                  passed := false }
        | none => result
      summary.addResult result)
    { totalTests := 0, passed := 0, failed := 0, results := [] }

/-! ## Helper lemmas -/

/-- Field behaviour of `TestSummary.addResult`. -/
theorem TestSummary.addResult_spec (t : TestSummary) (r : TestResult) :
    (t.addResult r).totalTests = t.totalTests + 1
  ∧ (t.addResult r).results = t.results ++ [r]
  ∧ (t.addResult r).passed = t.passed + (if r.passed then 1 else 0)
  ∧ (t.addResult r).failed = t.failed + (if r.passed then 0 else 1) := by
  unfold TestSummary.addResult
  by_cases h : r.passed <;> simp [h]

/-- Counting invariant of any fold whose step is an `addResult` call, such
as the loop of `TestOperations`. -/
theorem testOperations_fold_counts (f : TestSummary → Operation → TestSummary)
    (hf : ∀ s op, ∃ r, f s op = s.addResult r) :
    ∀ (ops : List Operation) (t : TestSummary),
    (ops.foldl f t).totalTests = t.totalTests + ops.length
  ∧ (ops.foldl f t).results.length = t.results.length + ops.length
  ∧ (ops.foldl f t).passed + (ops.foldl f t).failed
      = t.passed + t.failed + ops.length := by
  intro ops
  induction ops with
  | nil => intro t; exact ⟨rfl, rfl, rfl⟩
  | cons op rest ih =>
    intro t
    obtain ⟨r, hr⟩ := hf t op
    simp only [List.foldl_cons, List.length_cons, hr]
    obtain ⟨h1, h2, h3⟩ := ih (t.addResult r)
    obtain ⟨a1, a2, a3, a4⟩ := TestSummary.addResult_spec t r
    refine ⟨?_, ?_, ?_⟩
    · rw [h1, a1]; omega
    · rw [h2, a2]; simp; omega
    · rw [h3, a3, a4]; by_cases hp : r.passed <;> simp [hp] <;> omega

/-- C10: every `TestSummary` produced by `TestOperations` satisfies
`TotalTests = Passed + Failed = length Results`; each `AddResult` call
appends exactly one result, increments `TotalTests` by one and increments
exactly one of `Passed` (when the result passed) or `Failed`. -/
theorem testOperations_summary_invariant
    (runOp : Operation → TestResult × Option String) (ops : List Operation)
    (t : TestSummary) (r : TestResult) :
    ((TestOperations runOp ops).totalTests
        = (TestOperations runOp ops).passed + (TestOperations runOp ops).failed)
  ∧ (TestOperations runOp ops).totalTests = (TestOperations runOp ops).results.length
  ∧ (t.addResult r).totalTests = t.totalTests + 1
  ∧ (t.addResult r).results = t.results ++ [r]
  ∧ (t.addResult r).passed = t.passed + (if r.passed then 1 else 0)
  ∧ (t.addResult r).failed = t.failed + (if r.passed then 0 else 1) := by
  obtain ⟨a1, a2, a3, a4⟩ := TestSummary.addResult_spec t r
  have hf : ∀ (s : TestSummary) (op : Operation),
      ∃ x, (let (result, err) := runOp op
            let result :=
              match err with
              | some e => { result with error := "test execution error: " ++ e,
                                        passed := false }
              | none => result
            s.addResult result) = s.addResult x := by
    intro s op
    cases hro : runOp op with
    | mk res err =>
      exact ⟨match err with
             | some e => { res with error := "test execution error: " ++ e,
                                    passed := false }
             | none => res, by simp only [hro]; cases err <;> rfl⟩
  obtain ⟨h1, h2, h3⟩ := testOperations_fold_counts _ hf ops
    { totalTests := 0, passed := 0, failed := 0, results := [] }
  refine ⟨?_, ?_, a1, a2, a3, a4⟩
  · unfold TestOperations
    rw [h1, h3]
    simp
  · unfold TestOperations
    rw [h1, h2]
    simp

/-- C5 counterexample: with non-nil response and nil operation details,
`ValidateResponse` returns the empty error list, not a single descriptive
error. -/
theorem validateResponse_nil_details_empty :
    ValidateResponse (some { statusCode := 200 }) none = ([], none)
  ∧ (ValidateResponse (some { statusCode := 200 }) none).1.length ≠ 1 :=
  ⟨rfl, by decide⟩

/-- C5 (amended): `ValidateResponse` never returns a non-nil Go error; a
nil response yields exactly one descriptive error; nil operation details,
or details with nil response definitions, yield an empty error list. -/
theorem validateResponse_error_contract (resp : Option HttpResponse)
    (od : Option OperationDetails) (r : HttpResponse) (path method : String) :
    (ValidateResponse resp od).2 = none
  ∧ ValidateResponse none od
      = ([{ field := "response", message := "response is nil" }], none)
  ∧ ValidateResponse (some r) none = ([], none)
  ∧ ValidateResponse (some r) (some { path := path, method := method, responses := none })
      = ([], none) := by
  refine ⟨?_, rfl, rfl, rfl⟩
  cases resp with
  | none => rfl
  | some x =>
    cases od with
    | none => rfl
    | some o =>
      cases hres : o.responses with
      | none => simp [ValidateResponse, hres]
      | some rs =>
        cases hm : matchResponseDef rs x.statusCode <;>
          simp [ValidateResponse, hres, hm]

/-- Order and cadence of the progress events emitted by the serialised
measuring loop, for an arbitrary starting state of the shared counters. -/
theorem measureLoop_map_progress (interval : Nat) :
    ∀ (l : List GoRequestResult) (k : Nat) (td : Int) (ec : Nat),
    (measureLoop interval k td ec l).map (fun e => e.progress)
      = ((List.range l.length).map (fun j => k + j + 1)).filter
          (fun c => c % interval == 0) := by
  intro l
  induction l with
  | nil => intro k td ec; rfl
  | cons r rest ih =>
    intro k td ec
    have hrange := List.range_succ_eq_map rest.length
    simp only [measureLoop, List.length_cons, hrange, List.map_cons, List.map_map]
    have hmap : (List.range rest.length).map ((fun j => k + j + 1) ∘ (· + 1))
        = (List.range rest.length).map (fun j => (k + 1) + j + 1) := by
      apply List.map_congr_left
      intro j _
      simp only [Function.comp]
      omega
    rw [hmap, List.filter_cons]
    by_cases hc : (k + 1) % interval = 0
    · simp only [hc]
      simp [ih (k + 1), hc]
    · simp only [hc]
      simp [ih (k + 1), hc]

/-- C9 counterexample: at Iterations = 30 the code computes interval
`max(1, 30/20) = 1` (integer floor division), while the ceiling of 30/20
is 2, so the interval is not `max(1, ceil(I/20))`. -/
theorem progressInterval_ceiling_refuted :
    progressInterval 30 = 1
  ∧ ⌈(30 : ℚ) / 20⌉ = 2
  ∧ (progressInterval 30 : Int) ≠ max 1 ⌈(30 : ℚ) / 20⌉ := by
  have hceil : ⌈(30 : ℚ) / 20⌉ = 2 := by
    rw [Int.ceil_eq_iff] <;> norm_num
  refine ⟨by decide, hceil, ?_⟩
  rw [hceil]
  decide

/-- C9 (amended): the progress-reporting interval is
`max(1, I/20)` with Go floor division, and in the serialised measuring
loop a progress event is emitted exactly at the completed counts that are
multiples of that interval. -/
theorem progress_event_cadence (cfg : Config) (raws : List GoRequestResult) :
    progressInterval cfg.iterations = max 1 (cfg.iterations / 20)
  ∧ (measureLoop (progressInterval cfg.iterations) 0 0 0 raws).map (fun e => e.progress)
      = ((List.range raws.length).map (fun j => j + 1)).filter
          (fun c => c % progressInterval cfg.iterations == 0) := by
  refine ⟨rfl, ?_⟩
  have h := measureLoop_map_progress (progressInterval cfg.iterations) raws 0 0 0
  simpa using h

/-- Appending behaviour of `BenchmarkSummary.addResult`: whatever the
aggregate updates do, the result list grows by exactly the given result. -/
theorem BenchmarkSummary.addResult_results (s : BenchmarkSummary)
    (r : BenchmarkResult) : (s.addResult r).results = s.results ++ [r] := by
  simp only [BenchmarkSummary.addResult]
  split <;> split <;> split <;> split <;> simp

/-- The finalize step only records the total duration and throughput. -/
theorem BenchmarkSummary.finalize_results (s : BenchmarkSummary) (d : Int) :
    (s.finalize d).results = s.results := by
  unfold BenchmarkSummary.finalize
  split <;> rfl

/-- The fold of `BenchmarkOperations` appends one entry per operation. -/
theorem benchmarkOperations_fold_results (cfg : Config) (env : BenchEnv) :
    ∀ (ops : List Operation) (s : BenchmarkSummary),
    (ops.foldl (fun s op => s.addResult (benchmarkOperationsEntry cfg env op)) s).results
      = s.results ++ ops.map (benchmarkOperationsEntry cfg env) := by
  intro ops
  induction ops with
  | nil => intro s; simp
  | cons op rest ih =>
    intro s
    simp only [List.foldl_cons, List.map_cons]
    rw [ih, BenchmarkSummary.addResult_results]
    simp

/-- C6: when the operation-detail fetch or the sample request build of an
operation fails before any HTTP call, `BenchmarkOperations` synthesises a
result with `ErrorCount = Iterations` and `ErrorRate = 100` for it, and
still appends one result per operation in input order (the run is not
aborted). -/
theorem benchmarkOperations_failure_isolation (cfg : Config) (env : BenchEnv)
    (ops : List Operation) :
    (benchmarkOperations cfg env ops).results
      = ops.map (benchmarkOperationsEntry cfg env)
  ∧ (benchmarkOperations cfg env ops).results.length = ops.length
  ∧ ∀ op, (env.detailsErr op ≠ none ∨ env.buildErr op ≠ none) →
      (benchmarkOperationsEntry cfg env op).errorCount = cfg.iterations
    ∧ (benchmarkOperationsEntry cfg env op).errorRate = 100 := by
  have hres : (benchmarkOperations cfg env ops).results
      = ops.map (benchmarkOperationsEntry cfg env) := by
    unfold benchmarkOperations
    rw [BenchmarkSummary.finalize_results, benchmarkOperations_fold_results]
    simp
  refine ⟨hres, by rw [hres]; simp, ?_⟩
  intro op hop
  unfold benchmarkOperationsEntry benchmarkOperation
  cases hd : env.detailsErr op with
  | some e => simp [hd, initResult]
  | none =>
    cases hb : env.buildErr op with
    | some e => simp [hd, hb, initResult]
    | none =>
      exfalso
      rcases hop with h | h
      · exact h hd
      · exact h hb

/-- Counting invariant of the aggregation loop of `processResults`: each
raw result adds exactly one to the success or error count, the error
count grows by the number of raw failures, and the configured iteration
count is untouched. -/
theorem processStep_counts (acc : ProcessAcc) (r : GoRequestResult) :
    (processStep acc r).result.successCount
      = acc.result.successCount + (if r.error = "" then 1 else 0)
  ∧ (processStep acc r).result.errorCount
      = acc.result.errorCount + (if r.error = "" then 0 else 1)
  ∧ (processStep acc r).result.iterations = acc.result.iterations := by
  unfold processStep
  by_cases he : r.error = "" <;> by_cases hs : r.statusCode > 0 <;>
    simp [he, hs] <;> split <;> simp

/-- Fold form of `processStep_counts`. -/
theorem processFold_counts (raws : List GoRequestResult) :
    ∀ acc : ProcessAcc,
    (raws.foldl processStep acc).result.successCount
        + (raws.foldl processStep acc).result.errorCount
      = acc.result.successCount + acc.result.errorCount + raws.length
  ∧ (raws.foldl processStep acc).result.iterations = acc.result.iterations
  ∧ ((∀ x ∈ raws, x.error = "") →
      (raws.foldl processStep acc).result.errorCount = acc.result.errorCount) := by
  induction raws with
  | nil => intro acc; simp
  | cons r rest ih =>
    intro acc
    obtain ⟨h1, h2, h3⟩ := ih (processStep acc r)
    obtain ⟨a1, a2, a3⟩ := processStep_counts acc r
    simp only [List.foldl_cons, List.length_cons]
    refine ⟨by rw [h1, a1, a2]; by_cases he : r.error = "" <;> simp [he] <;> omega,
            by rw [h2, a3], ?_⟩
    intro hall
    have he : r.error = "" := hall r (by simp)
    rw [h3 (fun x hx => hall x (by simp [hx])), a2]
    simp [he]

/-- C1: for a completed, non-cancelled benchmark of one operation with
`Iterations = I`, the result of `processResults` on the `I` raw request
results satisfies `SuccessCount + ErrorCount = I` and
`ErrorRate = ErrorCount / I * 100`; with no raw errors the error rate
is zero. -/
theorem processResults_invariant (cfg : Config) (op : Operation)
    (raws : List GoRequestResult) (hlen : raws.length = cfg.iterations) :
    (processResults (initResult cfg op) raws).successCount
        + (processResults (initResult cfg op) raws).errorCount = cfg.iterations
  ∧ (processResults (initResult cfg op) raws).errorRate
      = ((processResults (initResult cfg op) raws).errorCount : ℚ)
          / (cfg.iterations : ℚ) * 100
  ∧ ((∀ x ∈ raws, x.error = "") →
      (processResults (initResult cfg op) raws).errorRate = 0) := by
  by_cases hnil : raws.length = 0
  · have hraws : raws = [] := List.length_eq_zero.mp hnil
    have hI : cfg.iterations = 0 := by omega
    subst hraws
    simp [processResults, initResult, hI]
  · have hIpos : 0 < cfg.iterations := by omega
    obtain ⟨f1, f2, f3⟩ := processFold_counts raws ⟨initResult cfg op, [], 0, []⟩
    simp only [initResult] at f1 f2
    unfold processResults
    rw [if_neg hnil]
    set ACC := raws.foldl processStep ⟨initResult cfg op, [], 0, []⟩ with hACC
    have hIter : ACC.result.iterations = cfg.iterations := f2
    have hsum : ACC.result.successCount + ACC.result.errorCount = raws.length := by
      simpa using f1
    dsimp only
    split
    all_goals split
    all_goals try dsimp only
    all_goals try simp only [hIter]
    all_goals rw [if_pos hIpos]
    all_goals refine ⟨by simpa using hsum.trans hlen, by simp, ?_⟩
    all_goals intro hall
    all_goals
      (have h0 : ACC.result.errorCount = 0 := by simpa [initResult] using f3 hall
       simp [h0])

/-- C4: the validator matches the response definition by exact
status-code string first, then the declared default, then the
`Nxx` range key; with no match it returns exactly one error with field
`status_code` and performs no header, content-type or body checks
(the single error is returned whatever the response carries). -/
theorem validateResponse_status_matching (responses : ResponsesDef) (status : Nat)
    (resp : HttpResponse) (od : OperationDetails) :
    matchResponseDef responses status
      = (lookupCode (responses.codes.getD []) (toString status)).orElse (fun _ =>
          (responses.default).orElse (fun _ =>
            lookupCode (responses.codes.getD []) (toString (status / 100) ++ "xx")))
  ∧ (od.responses = some responses → resp.statusCode = status →
      matchResponseDef responses status = none →
      (ValidateResponse (some resp) (some od)).1
        = [{ field := "status_code",
             message := "unexpected status code " ++ toString status
               ++ ", not defined in OpenAPI spec" }]) := by
  constructor
  · unfold matchResponseDef
    cases hc : responses.codes with
    | none => cases hd : responses.default <;> simp [hc, hd, lookupCode, Option.orElse]
    | some codes =>
      cases he : lookupCode codes (toString status) with
      | some d => simp [hc, he, Option.orElse]
      | none => cases hd : responses.default <;> simp [hc, hd, he, Option.orElse]
  · intro h1 h2 h3
    subst h2
    simp [ValidateResponse, h1, h3]

/-- C7: for every non-nil schema `GenerateValue` returns a value and a
nil error, applying the precedence declared example, then declared
default, then the rule for the first declared type, then the format rule
when a format is set, then the empty string. -/
theorem generateValue_precedence (env : GenEnv) (s : Schema) (ctr : Nat) :
    (∃ v c, GenerateValue env (some s) ctr = (Except.ok v, c))
  ∧ (∀ e, s.fields.exampleVal = some e →
        GenerateValue env (some s) ctr = (Except.ok e, ctr))
  ∧ (∀ d, s.fields.exampleVal = none → s.fields.defaultVal = some d →
        GenerateValue env (some s) ctr = (Except.ok d, ctr))
  ∧ (s.fields.exampleVal = none → s.fields.defaultVal = none →
       ((s.fields.type.head? = some "string" →
           GenerateValue env (some s) ctr
             = (Except.ok (Json.str (generateString env s ctr).1),
                (generateString env s ctr).2))
      ∧ (s.fields.type.head? = some "integer" →
           GenerateValue env (some s) ctr
             = (Except.ok (generateNumber env s ctr).1, (generateNumber env s ctr).2))
      ∧ (s.fields.type.head? = some "number" →
           GenerateValue env (some s) ctr
             = (Except.ok (generateNumber env s ctr).1, (generateNumber env s ctr).2))
      ∧ (s.fields.type.head? = some "boolean" →
           GenerateValue env (some s) ctr = (Except.ok (Json.bool true), ctr))
      ∧ (s.fields.type.head? = some "array" →
           GenerateValue env (some s) ctr
             = (Except.ok (generateArray env s ctr).1, (generateArray env s ctr).2))
      ∧ (s.fields.type.head? = some "object" →
           GenerateValue env (some s) ctr
             = (Except.ok (generateObject env s ctr).1, (generateObject env s ctr).2))
      ∧ ((∀ t, s.fields.type.head? = some t →
            t ≠ "string" ∧ t ≠ "integer" ∧ t ≠ "number" ∧ t ≠ "boolean"
              ∧ t ≠ "array" ∧ t ≠ "object") →
          (s.fields.format ≠ "" →
             GenerateValue env (some s) ctr
               = (Except.ok (generateFromFormat env s.fields.format ctr).1,
                  (generateFromFormat env s.fields.format ctr).2))
        ∧ (s.fields.format = "" →
             GenerateValue env (some s) ctr = (Except.ok (Json.str ""), ctr))))) := by
  have hok : ∀ e, s.fields.exampleVal = some e →
      GenerateValue env (some s) ctr = (Except.ok e, ctr) := by
    intro e he
    unfold GenerateValue
    simp [he]
  have hdef : ∀ d, s.fields.exampleVal = none → s.fields.defaultVal = some d →
      GenerateValue env (some s) ctr = (Except.ok d, ctr) := by
    intro d he hd
    unfold GenerateValue
    simp [he, hd]
  refine ⟨?_, hok, hdef, ?_⟩
  · -- never fails: case analysis over the dispatch
    cases he : s.fields.exampleVal with
    | some e => exact ⟨e, ctr, hok e he⟩
    | none =>
      cases hd : s.fields.defaultVal with
      | some d => exact ⟨d, ctr, hdef d he hd⟩
      | none =>
        unfold GenerateValue
        simp only [he, hd]
        split <;> (try split) <;> exact ⟨_, _, rfl⟩
  · intro he hd
    refine ⟨?_, ?_, ?_, ?_, ?_, ?_, ?_⟩
    · intro ht; unfold GenerateValue; simp [he, hd, ht]
    · intro ht; unfold GenerateValue; simp [he, hd, ht]
    · intro ht; unfold GenerateValue; simp [he, hd, ht]
    · intro ht; unfold GenerateValue; simp [he, hd, ht]
    · intro ht; unfold GenerateValue; simp [he, hd, ht]
    · intro ht; unfold GenerateValue; simp [he, hd, ht]
    · intro hunk
      constructor
      · intro hfmt
        unfold GenerateValue
        simp only [he, hd]
        cases hh : s.fields.type.head? with
        | none => simp [hfmt]
        | some t =>
          obtain ⟨n1, n2, n3, n4, n5, n6⟩ := hunk t hh
          split <;> simp_all
      · intro hfmt
        unfold GenerateValue
        simp only [he, hd]
        cases hh : s.fields.type.head? with
        | none => simp [hfmt]
        | some t =>
          obtain ⟨n1, n2, n3, n4, n5, n6⟩ := hunk t hh
          split <;> simp_all

/-- Generation environment whose random oracle always returns 0 and whose
clock is fixed; `Intn` returning 0 is within the `math/rand` contract for
every positive bound. -/
def envDraw0 : GenEnv :=
  { rng := { intn := fun _ _ => 0, float64 := fun _ => 0, float32 := fun _ => 0,
             int31 := fun _ => 0, int63 := fun _ => 0 }
    nowDate := "2026-01-01"
    nowDateTime := "2026-01-01T00:00:00Z" }

/-- Generation environment whose `Intn` oracle always returns 7 (within
the contract for every bound above 7). -/
def envDraw7 : GenEnv :=
  { rng := { intn := fun _ _ => 7, float64 := fun _ => 0, float32 := fun _ => 0,
             int31 := fun _ => 0, int63 := fun _ => 0 }
    nowDate := "2026-01-01"
    nowDateTime := "2026-01-01T00:00:00Z" }

/-- String schema declaring only `maxLength: 3`. -/
def schemaMax3 : Schema := .mk { maxLength := some 3 }

/-- Schema with no declared constraints at all. -/
def schemaBare : Schema := .mk {}

/-- Integer schema with fractional bounds `minimum = maximum = 1/2`. -/
def schemaIntHalf : Schema :=
  .mk { type := ["integer"], minimum := some (1/2), maximum := some (1/2) }

/-- Integer schema with bounds `minimum = maximum = 0`. -/
def schemaInt00 : Schema :=
  .mk { type := ["integer"], minimum := some 0, maximum := some 0 }

/-- String schema with `minLength: 1, maxLength: 3`. -/
def schemaLen13 : Schema := .mk { minLength := some 1, maxLength := some 3 }

/-- C3 counterexample: for `maxLength = 3` (minLength absent) and draw 0
the computed length 0 is floored to 5, which exceeds `maxLength`; and for
both bounds absent with draw 7 the generated length is 7, not 5. -/
theorem generateString_length_range_refuted :
    ((generateString envDraw0 schemaMax3 0).1.length = 5
      ∧ ¬ (generateString envDraw0 schemaMax3 0).1.length ≤ 3)
  ∧ ((generateString envDraw7 schemaBare 0).1.length = 7
      ∧ (generateString envDraw7 schemaBare 0).1.length ≠ 5) := by
  refine ⟨⟨?_, ?_⟩, ?_, ?_⟩ <;> decide

/-- C3 (amended): for a string schema without format, enum or pattern,
with non-negative effective `minLength = a` at most the effective
`maxLength = b` (defaults 0 and 10), and with `L` the uniformly picked
length (`a + Intn(b-a+1)` when `b > a`, else `a`): when `L` is non-zero
the generated string has length exactly `L`, which lies in `[a, b]`;
when `L` is zero (possible only with `a = 0`) the generated length is
exactly 5; in particular when both effective bounds are zero the length
is exactly 5. -/
theorem generateString_length_range (env : GenEnv) (s : Schema) (ctr : Nat)
    (a b L : Int)
    (hfmt : s.fields.format = "") (henum : s.fields.enum = [])
    (hpat : s.fields.pattern = "")
    (hA : (s.fields.minLength).getD 0 = a)
    (hB : (s.fields.maxLength).getD 10 = b)
    (hL : L = if b > a then a + (env.rng.intn ctr (b - a + 1).toNat : Int) else a)
    (h0 : 0 ≤ a) (hab : a ≤ b)
    (hdraw : (env.rng.intn ctr (b - a + 1).toNat : Int) ≤ b - a) :
    (L ≠ 0 →
        ((generateString env s ctr).1.length : Int) = L ∧ a ≤ L ∧ L ≤ b)
  ∧ (L = 0 → a = 0 ∧ (generateString env s ctr).1.length = 5)
  ∧ (a = 0 ∧ b = 0 → (generateString env s ctr).1.length = 5) := by
  have hfmt' : ¬ s.fields.format ≠ "" := by simp [hfmt]
  unfold generateString
  rw [if_neg hfmt']
  unfold generateStringTail
  rw [henum]
  rw [if_neg (by simp [hpat])]
  have hmin : (match s.fields.minLength with | some m => m | none => (0 : Int))
      = a := by rw [← hA]; cases s.fields.minLength <;> rfl
  have hmax : (match s.fields.maxLength with | some m => m | none => (10 : Int))
      = b := by rw [← hB]; cases s.fields.maxLength <;> rfl
  rw [hmin, hmax]
  dsimp only
  by_cases hba : b > a
  · rw [if_pos hba]
    dsimp only
    set r := (env.rng.intn ctr (b - a + 1).toNat : Int) with hr
    have hr0 : 0 ≤ r := by positivity
    have hLr : L = a + r := by rw [hL, if_pos hba]
    by_cases hz : a + r = 0
    · rw [if_pos hz]
      have hlen5 : (String.mk (List.replicate (5 : Int).toNat 'a')).length = 5 := by
        simp [String.length]
      exact ⟨fun hLne => absurd (hLr.trans hz) hLne,
        fun _ => ⟨by omega, hlen5⟩, fun _ => hlen5⟩
    · rw [if_neg hz]
      have hlen : (((String.mk (List.replicate (a + r).toNat 'a')).length : Int))
          = a + r := by
        simp [String.length]
        omega
      exact ⟨fun _ => ⟨by rw [hlen, hLr], by omega, by omega⟩,
        fun hL0 => absurd (hLr.symm.trans hL0) hz,
        fun h00 => by omega⟩
  · rw [if_neg hba]
    dsimp only
    have hba' : a = b := le_antisymm hab (by omega)
    have hLa : L = a := by rw [hL, if_neg hba]
    by_cases hz : a = 0
    · rw [if_pos hz]
      have hlen5 : (String.mk (List.replicate (5 : Int).toNat 'a')).length = 5 := by
        simp [String.length]
      exact ⟨fun hLne => absurd (hLa.trans hz) hLne,
        fun _ => ⟨hz, hlen5⟩, fun _ => hlen5⟩
    · rw [if_neg hz]
      have hlen : (((String.mk (List.replicate a.toNat 'a')).length : Int)) = a := by
        simp [String.length]
        omega
      exact ⟨fun _ => ⟨by rw [hlen, hLa], by omega, by omega⟩,
        fun hL0 => absurd (hLa.symm.trans hL0) hz,
        fun h00 => absurd h00.1 hz⟩

/-- C3 witness: the amended statement applied at a schema with
`minLength = 1`, `maxLength = 3` and draw 0, where the picked length is 1
and the generated string is "a". -/
theorem generateString_length_range_witness :
    (schemaLen13.fields.format = "" ∧ schemaLen13.fields.enum = []
      ∧ schemaLen13.fields.pattern = ""
      ∧ (schemaLen13.fields.minLength).getD 0 = 1
      ∧ (schemaLen13.fields.maxLength).getD 10 = 3
      ∧ (1 : Int) = (if (3 : Int) > 1 then
            1 + (envDraw0.rng.intn 0 ((3 : Int) - 1 + 1).toNat : Int) else 1)
      ∧ (0 : Int) ≤ 1 ∧ (1 : Int) ≤ 3
      ∧ (envDraw0.rng.intn 0 ((3 : Int) - 1 + 1).toNat : Int) ≤ (3 : Int) - 1)
  ∧ (((1 : Int) ≠ 0 →
        ((generateString envDraw0 schemaLen13 0).1.length : Int) = 1
          ∧ (1 : Int) ≤ 1 ∧ (1 : Int) ≤ 3)
    ∧ ((1 : Int) = 0 → (1 : Int) = 0
          ∧ (generateString envDraw0 schemaLen13 0).1.length = 5)
    ∧ ((1 : Int) = 0 ∧ (3 : Int) = 0 →
          (generateString envDraw0 schemaLen13 0).1.length = 5)) :=
  ⟨⟨rfl, rfl, rfl, by decide, by decide, by decide, by decide, by decide, by decide⟩,
   generateString_length_range envDraw0 schemaLen13 0 1 3 1 rfl rfl rfl rfl rfl
     (by decide) (by decide) (by decide) (by decide)⟩

/-- C8 counterexample: for an integer-typed schema with declared bounds
`minimum = maximum = 1/2`, the generated value is the truncation 0, which
lies below the declared minimum, so the generated value is not always in
`[minimum, maximum]`. -/
theorem generateNumber_range_refuted :
    (generateNumber envDraw0 schemaIntHalf 0).1 = Json.num 0
  ∧ ¬ ((1 : ℚ) / 2 ≤ 0) := by
  constructor
  · have htr : goTrunc ((2 : ℚ)⁻¹) = 0 := by
      unfold goTrunc
      rw [if_neg (by norm_num), Int.floor_eq_zero_iff, Set.mem_Ico]
      constructor <;> norm_num
    unfold generateNumber
    dsimp only [schemaIntHalf, Schema.fields, envDraw0]
    simp [htr]
  · norm_num

/-- C8 (amended): for a numeric schema with effective bounds
`minimum ≤ maximum` (defaults 0 and 100), the pre-truncation value
`minimum + Float64()*(maximum-minimum)` always lies in
`[minimum, maximum]`; a non-integer-typed schema returns it unchanged,
while an integer-typed schema returns its truncation toward zero, a whole
number, which lies in `[minimum, maximum]` whenever both bounds are whole
numbers. -/
theorem generateNumber_range (env : GenEnv) (s : Schema) (ctr : Nat)
    (q lo hi : ℚ)
    (hq : env.rng.float64 ctr = q)
    (hlo : (s.fields.minimum).getD 0 = lo)
    (hhi : (s.fields.maximum).getD 100 = hi)
    (hq0 : 0 ≤ q) (hq1 : q < 1) (hab : lo ≤ hi) :
    (lo ≤ lo + q * (hi - lo) ∧ lo + q * (hi - lo) ≤ hi)
  ∧ (¬ s.fields.type.head? = some "integer" →
        (generateNumber env s ctr).1 = Json.num (lo + q * (hi - lo)))
  ∧ (s.fields.type.head? = some "integer" →
        (generateNumber env s ctr).1
          = Json.num ((goTrunc (lo + q * (hi - lo)) : ℤ) : ℚ)
      ∧ ((∃ zl : ℤ, lo = (zl : ℚ)) → (∃ zh : ℤ, hi = (zh : ℚ)) →
          lo ≤ ((goTrunc (lo + q * (hi - lo)) : ℤ) : ℚ)
        ∧ ((goTrunc (lo + q * (hi - lo)) : ℤ) : ℚ) ≤ hi)) := by
  have hmin : (match s.fields.minimum with | some m => m | none => (0 : ℚ)) = lo := by
    rw [← hlo]; cases s.fields.minimum <;> rfl
  have hmax : (match s.fields.maximum with | some m => m | none => (100 : ℚ)) = hi := by
    rw [← hhi]; cases s.fields.maximum <;> rfl
  have hnn : (0 : ℚ) ≤ hi - lo := sub_nonneg.mpr hab
  have hv0 : lo ≤ lo + q * (hi - lo) := by nlinarith [mul_nonneg hq0 hnn]
  have hv1 : lo + q * (hi - lo) ≤ hi := by
    nlinarith [mul_nonneg (sub_nonneg.mpr (le_of_lt hq1)) hnn]
  refine ⟨⟨hv0, hv1⟩, ?_, ?_⟩
  · intro hne
    unfold generateNumber
    rw [hmin, hmax, hq]
    dsimp only
    rw [if_neg hne]
  · intro hint
    constructor
    · unfold generateNumber
      rw [hmin, hmax, hq]
      dsimp only
      rw [if_pos hint]
    · rintro ⟨zl, rfl⟩ ⟨zh, rfl⟩
      unfold goTrunc
      by_cases hneg : (zl : ℚ) + q * ((zh : ℚ) - zl) < 0
      · rw [if_pos hneg]
        refine ⟨le_trans hv0 (Int.le_ceil _), ?_⟩
        exact_mod_cast Int.ceil_le.mpr hv1
      · rw [if_neg hneg]
        refine ⟨?_, le_trans (Int.floor_le _) hv1⟩
        exact_mod_cast Int.le_floor.mpr hv0

/-- C8 witness: the amended statement applied at an integer schema with
bounds 0 and 0 and the zero draw. -/
theorem generateNumber_range_witness :
    (envDraw0.rng.float64 0 = 0
      ∧ (schemaInt00.fields.minimum).getD 0 = 0
      ∧ (schemaInt00.fields.maximum).getD 100 = 0
      ∧ (0 : ℚ) ≤ 0 ∧ (0 : ℚ) < 1 ∧ (0 : ℚ) ≤ 0)
  ∧ (((0 : ℚ) ≤ 0 + 0 * (0 - 0) ∧ (0 : ℚ) + 0 * (0 - 0) ≤ 0)
  ∧ (¬ schemaInt00.fields.type.head? = some "integer" →
        (generateNumber envDraw0 schemaInt00 0).1 = Json.num (0 + 0 * (0 - 0)))
  ∧ (schemaInt00.fields.type.head? = some "integer" →
        (generateNumber envDraw0 schemaInt00 0).1
          = Json.num ((goTrunc ((0 : ℚ) + 0 * (0 - 0)) : ℤ) : ℚ)
      ∧ ((∃ zl : ℤ, (0 : ℚ) = (zl : ℚ)) → (∃ zh : ℤ, (0 : ℚ) = (zh : ℚ)) →
          (0 : ℚ) ≤ ((goTrunc ((0 : ℚ) + 0 * (0 - 0)) : ℤ) : ℚ)
        ∧ ((goTrunc ((0 : ℚ) + 0 * (0 - 0)) : ℤ) : ℚ) ≤ 0))) :=
  ⟨⟨rfl, rfl, rfl, le_refl 0, zero_lt_one, le_refl 0⟩,
   generateNumber_range envDraw0 schemaInt00 0 0 0 0 rfl rfl rfl
     (le_refl 0) zero_lt_one (le_refl 0)⟩

/-- C1 witness: the invariant applied at a concrete two-iteration run
with one success and one transport failure. -/
theorem processResults_invariant_witness :
    (([⟨5, 200, ""⟩, ⟨7, 500, "request failed: x"⟩] : List GoRequestResult).length
        = ({ iterations := 2 } : Config).iterations)
  ∧ ((processResults (initResult { iterations := 2 } { path := "/p" })
          [⟨5, 200, ""⟩, ⟨7, 500, "request failed: x"⟩]).successCount
        + (processResults (initResult { iterations := 2 } { path := "/p" })
          [⟨5, 200, ""⟩, ⟨7, 500, "request failed: x"⟩]).errorCount
        = ({ iterations := 2 } : Config).iterations
    ∧ (processResults (initResult { iterations := 2 } { path := "/p" })
          [⟨5, 200, ""⟩, ⟨7, 500, "request failed: x"⟩]).errorRate
        = ((processResults (initResult { iterations := 2 } { path := "/p" })
            [⟨5, 200, ""⟩, ⟨7, 500, "request failed: x"⟩]).errorCount : ℚ)
            / (({ iterations := 2 } : Config).iterations : ℚ) * 100
    ∧ ((∀ x ∈ ([⟨5, 200, ""⟩, ⟨7, 500, "request failed: x"⟩] : List GoRequestResult),
          x.error = "") →
        (processResults (initResult { iterations := 2 } { path := "/p" })
          [⟨5, 200, ""⟩, ⟨7, 500, "request failed: x"⟩]).errorRate = 0)) :=
  ⟨by decide,
   processResults_invariant { iterations := 2 } { path := "/p" }
     [⟨5, 200, ""⟩, ⟨7, 500, "request failed: x"⟩] (by decide)⟩

/-! ## Percentile properties (C2) -/

/-- Sorted lists have monotone indexed access. -/
theorem sorted_getI_mono {l : List Int} (hs : List.Sorted (· ≤ ·) l)
    {i j : Nat} (hij : i ≤ j) (hj : j < l.length) : l.getI i ≤ l.getI j := by
  rcases eq_or_lt_of_le hij with rfl | hlt
  · exact le_refl _
  · have hi : i < l.length := lt_trans hlt hj
    rw [List.getI_eq_getElem _ hi, List.getI_eq_getElem _ hj]
    exact List.pairwise_iff_getElem.mp hs i j hi hj hlt

/-- The head of a non-empty list as indexed access. -/
theorem headI_eq_getI (l : List Int) (hne : l ≠ []) : l.headI = l.getI 0 := by
  cases l with
  | nil => exact absurd rfl hne
  | cons a t => rfl

/-- The last element of a non-empty list as indexed access. -/
theorem getLastI_eq_getI (l : List Int) (hne : l ≠ []) :
    l.getLastI = l.getI (l.length - 1) := by
  have hlen : 0 < l.length := List.length_pos.mpr hne
  have h1 : l.length - 1 < l.length := by omega
  rw [List.getLastI_eq_getLast?, List.getLast?_eq_getElem?,
    List.getElem?_eq_getElem h1, List.getI_eq_getElem _ h1]

/-- Truncation toward zero is the identity on integers. -/
theorem goTrunc_intCast (z : ℤ) : goTrunc (z : ℚ) = z := by
  unfold goTrunc
  split <;> simp

/-- Truncation toward zero is monotone. -/
theorem goTrunc_mono {x y : ℚ} (h : x ≤ y) : goTrunc x ≤ goTrunc y := by
  unfold goTrunc
  by_cases hx : x < 0 <;> by_cases hy : y < 0
  · rw [if_pos hx, if_pos hy]
    exact Int.ceil_le_ceil h
  · rw [if_pos hx, if_neg hy]
    have h1 : ⌈x⌉ ≤ (0 : ℤ) := Int.ceil_le.mpr (by exact_mod_cast le_of_lt hx)
    have h2 : (0 : ℤ) ≤ ⌊y⌋ := Int.le_floor.mpr (by exact_mod_cast not_lt.mp hy)
    omega
  · exact absurd (lt_of_le_of_lt h hy) hx
  · rw [if_neg hx, if_neg hy]
    exact Int.floor_le_floor h

/-- Piecewise-linear interpolation at fractional index `x` over a duration
list, in the exact form computed by the interior branch of `percentile`
(including the fallback to the lower element when the upper index runs
past the end). -/
def interpVal (l : List Int) (x : ℚ) : ℚ :=
  if ⌊x⌋ + 1 ≥ (l.length : Int) then (l.getI ⌊x⌋.toNat : ℚ)
  else (l.getI ⌊x⌋.toNat : ℚ) * (1 - Int.fract x)
    + (l.getI (⌊x⌋.toNat + 1) : ℚ) * Int.fract x

/-- Basic bounds of the interpolation index `(n-1)*p/100` for interior
percentile arguments. -/
theorem percentileIndex_bounds (l : List Int) (p : Int) (hne : l ≠ [])
    (h0 : 0 < p) (h100 : p < 100) :
    0 ≤ ((l.length : ℚ) - 1) * (p : ℚ) / 100
  ∧ ((l.length : ℚ) - 1) * (p : ℚ) / 100 ≤ (l.length : ℚ) - 1 := by
  have hlen : 1 ≤ l.length := by
    have := List.length_pos.mpr hne
    omega
  have hn1 : (1 : ℚ) ≤ (l.length : ℚ) := by exact_mod_cast hlen
  have hn0 : (0 : ℚ) ≤ (l.length : ℚ) - 1 := by linarith
  have hp1 : (1 : ℚ) ≤ (p : ℚ) := by exact_mod_cast h0
  have hp100 : (p : ℚ) ≤ 100 := by exact_mod_cast le_of_lt h100
  constructor
  · apply div_nonneg _ (by norm_num)
    apply mul_nonneg hn0 (by linarith)
  · rw [mul_div_assoc]
    apply mul_le_of_le_one_right hn0
    rw [div_le_one (by norm_num)]
    exact hp100

/-- The interior branch of `percentile` computes `goTrunc` of `interpVal`
at index `(n-1)*p/100`. -/
theorem percentile_interior (l : List Int) (p : Int) (hne : l ≠ [])
    (h0 : 0 < p) (h100 : p < 100) :
    percentile l p
      = goTrunc (interpVal l (((l.length : ℚ) - 1) * (p : ℚ) / 100)) := by
  have hlen0 : ¬ l.length = 0 := fun h => hne (List.length_eq_zero.mp h)
  obtain ⟨hx0, _⟩ := percentileIndex_bounds l p hne h0 h100
  set x := ((l.length : ℚ) - 1) * (p : ℚ) / 100 with hx
  have hgt : goTrunc x = ⌊x⌋ := by
    unfold goTrunc
    rw [if_neg (not_lt.mpr hx0)]
  have hf0 : 0 ≤ ⌊x⌋ := Int.le_floor.mpr (by exact_mod_cast hx0)
  unfold percentile
  rw [if_neg hlen0, if_neg (not_le.mpr h0), if_neg (not_le.mpr h100)]
  dsimp only
  rw [← hx, hgt]
  unfold interpVal
  by_cases hub : ⌊x⌋ + 1 ≥ (l.length : Int)
  · rw [if_pos hub, if_pos hub, goTrunc_intCast]
  · rw [if_neg hub, if_neg hub]
    congr 1
    have h1 : (⌊x⌋ + 1).toNat = ⌊x⌋.toNat + 1 := by omega
    rw [h1]
    rfl

/-- Lower bound of the interpolated value by its lower ranked element. -/
theorem le_interpVal {l : List Int} (hs : List.Sorted (· ≤ ·) l)
    {x : ℚ} (hx0 : 0 ≤ x) (hxle : x ≤ (l.length : ℚ) - 1) :
    (l.getI ⌊x⌋.toNat : ℚ) ≤ interpVal l x := by
  unfold interpVal
  split
  · exact le_refl _
  · rename_i hcond
    have hf0 : 0 ≤ ⌊x⌋ := Int.le_floor.mpr (by exact_mod_cast hx0)
    have hj : ⌊x⌋.toNat + 1 < l.length := by omega
    have hw0 : 0 ≤ Int.fract x := Int.fract_nonneg x
    have hw1 : Int.fract x < 1 := Int.fract_lt_one x
    have hab : ((l.getI ⌊x⌋.toNat : Int) : ℚ) ≤ ((l.getI (⌊x⌋.toNat + 1) : Int) : ℚ) := by
      exact_mod_cast sorted_getI_mono hs (by omega) hj
    nlinarith [mul_nonneg hw0 (sub_nonneg.mpr hab)]

/-- Upper bound of the interpolated value by its upper ranked element
(capped at the last index). -/
theorem interpVal_le {l : List Int} (hs : List.Sorted (· ≤ ·) l) (hne : l ≠ [])
    {x : ℚ} (hx0 : 0 ≤ x) (hxle : x ≤ (l.length : ℚ) - 1) :
    interpVal l x ≤ (l.getI (min (⌊x⌋.toNat + 1) (l.length - 1)) : ℚ) := by
  have hlen : 1 ≤ l.length := by
    have := List.length_pos.mpr hne
    omega
  have hf0 : 0 ≤ ⌊x⌋ := Int.le_floor.mpr (by exact_mod_cast hx0)
  have hfle : ⌊x⌋ ≤ (l.length : Int) - 1 := by
    have h1 : ((l.length : Int) : ℚ) - 1 = (((l.length : Int) - 1 : Int) : ℚ) := by
      push_cast
      ring
    have h2 : ⌊x⌋ ≤ ⌊(((l.length : Int) - 1 : Int) : ℚ)⌋ := by
      apply Int.floor_le_floor
      rw [← h1]
      exact_mod_cast hxle
    rwa [Int.floor_intCast] at h2
  unfold interpVal
  split
  · rename_i hcond
    have he : ⌊x⌋.toNat = l.length - 1 := by omega
    have hm : min (⌊x⌋.toNat + 1) (l.length - 1) = l.length - 1 := by omega
    rw [hm, he]
  · rename_i hcond
    have hm : min (⌊x⌋.toNat + 1) (l.length - 1) = ⌊x⌋.toNat + 1 := by omega
    rw [hm]
    have hw0 : 0 ≤ Int.fract x := Int.fract_nonneg x
    have hw1 : Int.fract x < 1 := Int.fract_lt_one x
    have hj : ⌊x⌋.toNat + 1 < l.length := by omega
    have hab : ((l.getI ⌊x⌋.toNat : Int) : ℚ) ≤ ((l.getI (⌊x⌋.toNat + 1) : Int) : ℚ) := by
      exact_mod_cast sorted_getI_mono hs (by omega) hj
    nlinarith [mul_nonneg (sub_nonneg.mpr (le_of_lt hw1)) (sub_nonneg.mpr hab)]

/-- The interpolated value is monotone in the fractional index over a
sorted list. -/
theorem interpVal_mono {l : List Int} (hs : List.Sorted (· ≤ ·) l) (hne : l ≠ [])
    {x y : ℚ} (hx0 : 0 ≤ x) (hxy : x ≤ y) (hyle : y ≤ (l.length : ℚ) - 1) :
    interpVal l x ≤ interpVal l y := by
  have hy0 : 0 ≤ y := le_trans hx0 hxy
  have hxle : x ≤ (l.length : ℚ) - 1 := le_trans hxy hyle
  have hfx0 : 0 ≤ ⌊x⌋ := Int.le_floor.mpr (by exact_mod_cast hx0)
  have hfy0 : 0 ≤ ⌊y⌋ := Int.le_floor.mpr (by exact_mod_cast hy0)
  have hfyle : ⌊y⌋ ≤ (l.length : Int) - 1 := by
    have h1 : ((l.length : Int) : ℚ) - 1 = (((l.length : Int) - 1 : Int) : ℚ) := by
      push_cast
      ring
    have h2 : ⌊y⌋ ≤ ⌊(((l.length : Int) - 1 : Int) : ℚ)⌋ := by
      apply Int.floor_le_floor
      rw [← h1]
      exact_mod_cast hyle
    rwa [Int.floor_intCast] at h2
  rcases eq_or_lt_of_le (Int.floor_le_floor hxy) with hf | hf
  · unfold interpVal
    rw [hf]
    split
    · exact le_refl _
    · rename_i hcond
      have hw : Int.fract x ≤ Int.fract y := by
        unfold Int.fract
        rw [hf]
        linarith
      have hwx : 0 ≤ Int.fract x := Int.fract_nonneg x
      have hwy : Int.fract y < 1 := Int.fract_lt_one y
      have hj : ⌊y⌋.toNat + 1 < l.length := by omega
      have hab : ((l.getI ⌊y⌋.toNat : Int) : ℚ)
          ≤ ((l.getI (⌊y⌋.toNat + 1) : Int) : ℚ) := by
        exact_mod_cast sorted_getI_mono hs (by omega) hj
      nlinarith [mul_nonneg (sub_nonneg.mpr hw) (sub_nonneg.mpr hab)]
  · have hmid : min (⌊x⌋.toNat + 1) (l.length - 1) ≤ ⌊y⌋.toNat := by omega
    have hylt : ⌊y⌋.toNat < l.length := by omega
    calc interpVal l x
        ≤ (l.getI (min (⌊x⌋.toNat + 1) (l.length - 1)) : ℚ) :=
          interpVal_le hs hne hx0 hxle
      _ ≤ (l.getI ⌊y⌋.toNat : ℚ) := by
          exact_mod_cast sorted_getI_mono hs hmid hylt
      _ ≤ interpVal l y := le_interpVal hs hy0 hyle

/-- Floor bound transported from the rational index bound. -/
theorem floor_le_cast_sub_one {n : Nat} {x : ℚ} (hxle : x ≤ (n : ℚ) - 1) :
    ⌊x⌋ ≤ (n : Int) - 1 := by
  have h1 : ((n : ℚ)) - 1 = (((n : Int) - 1 : Int) : ℚ) := by push_cast; ring
  have h2 : ⌊x⌋ ≤ ⌊(((n : Int) - 1 : Int) : ℚ)⌋ := by
    apply Int.floor_le_floor
    rw [← h1]
    exact hxle
  rwa [Int.floor_intCast] at h2

/-- C2: over a non-empty sorted duration list, `percentile` returns the
first element at `p = 0`, the last element at `p = 100`, is monotone in
`p`, and in the interior computes the truncated linear interpolation at
index `(n-1)*p/100` between the floor- and ceiling-ranked elements. -/
theorem percentile_spec (l : List Int) (hne : l ≠ [])
    (hsort : List.Sorted (· ≤ ·) l) :
    percentile l 0 = l.headI
  ∧ percentile l 100 = l.getLastI
  ∧ (∀ p1 p2 : Int, p1 ≤ p2 → percentile l p1 ≤ percentile l p2)
  ∧ (∀ p : Int, 0 < p → p < 100 →
      percentile l p = goTrunc
        ((1 - Int.fract (((l.length : ℚ) - 1) * (p : ℚ) / 100))
            * (l.getI (⌊((l.length : ℚ) - 1) * (p : ℚ) / 100⌋).toNat : ℚ)
          + Int.fract (((l.length : ℚ) - 1) * (p : ℚ) / 100)
            * (l.getI (⌈((l.length : ℚ) - 1) * (p : ℚ) / 100⌉).toNat : ℚ))) := by
  have hlen0 : ¬ l.length = 0 := fun h => hne (List.length_eq_zero.mp h)
  have hlen : 1 ≤ l.length := by
    have := List.length_pos.mpr hne
    omega
  have e_low : ∀ p : Int, p ≤ 0 → percentile l p = l.headI := by
    intro p hp
    unfold percentile
    rw [if_neg hlen0, if_pos hp]
  have e_high : ∀ p : Int, 100 ≤ p → percentile l p = l.getLastI := by
    intro p hp
    unfold percentile
    rw [if_neg hlen0, if_neg (by omega), if_pos hp]
  have hhead_le_last : l.headI ≤ l.getLastI := by
    rw [headI_eq_getI l hne, getLastI_eq_getI l hne]
    exact sorted_getI_mono hsort (by omega) (by omega)
  have h_head_le : ∀ p : Int, l.headI ≤ percentile l p := by
    intro p
    by_cases hp : p ≤ 0
    · rw [e_low p hp]
    · by_cases hp2 : 100 ≤ p
      · rw [e_high p hp2]
        exact hhead_le_last
      · obtain ⟨hx0, hxle⟩ := percentileIndex_bounds l p hne (by omega) (by omega)
        rw [percentile_interior l p hne (by omega) (by omega)]
        set x := ((l.length : ℚ) - 1) * (p : ℚ) / 100
        have hf0 : 0 ≤ ⌊x⌋ := Int.le_floor.mpr (by exact_mod_cast hx0)
        have hfle : ⌊x⌋ ≤ (l.length : Int) - 1 := floor_le_cast_sub_one (by exact_mod_cast hxle)
        have hd : ((l.getI 0 : Int) : ℚ) ≤ ((l.getI ⌊x⌋.toNat : Int) : ℚ) := by
          exact_mod_cast sorted_getI_mono hsort (Nat.zero_le _) (by omega)
        rw [headI_eq_getI l hne]
        calc l.getI 0 = goTrunc ((l.getI 0 : Int) : ℚ) := (goTrunc_intCast _).symm
          _ ≤ goTrunc (interpVal l x) :=
            goTrunc_mono (le_trans hd (le_interpVal hsort hx0 hxle))
  have h_le_last : ∀ p : Int, percentile l p ≤ l.getLastI := by
    intro p
    by_cases hp : p ≤ 0
    · rw [e_low p hp]
      exact hhead_le_last
    · by_cases hp2 : 100 ≤ p
      · rw [e_high p hp2]
      · obtain ⟨hx0, hxle⟩ := percentileIndex_bounds l p hne (by omega) (by omega)
        rw [percentile_interior l p hne (by omega) (by omega)]
        set x := ((l.length : ℚ) - 1) * (p : ℚ) / 100
        have hd : ((l.getI (min (⌊x⌋.toNat + 1) (l.length - 1)) : Int) : ℚ)
            ≤ ((l.getI (l.length - 1) : Int) : ℚ) := by
          exact_mod_cast sorted_getI_mono hsort (min_le_right _ _) (by omega)
        rw [getLastI_eq_getI l hne]
        calc goTrunc (interpVal l x)
            ≤ goTrunc ((l.getI (l.length - 1) : Int) : ℚ) :=
              goTrunc_mono (le_trans (interpVal_le hsort hne hx0 hxle) hd)
          _ = l.getI (l.length - 1) := goTrunc_intCast _
  refine ⟨e_low 0 (le_refl 0), e_high 100 (le_refl 100), ?_, ?_⟩
  · intro p1 p2 h12
    by_cases h1a : p1 ≤ 0
    · rw [e_low p1 h1a]
      exact h_head_le p2
    · by_cases h2b : 100 ≤ p2
      · rw [e_high p2 h2b]
        exact h_le_last p1
      · have h1i : 0 < p1 := by omega
        have h2i : p2 < 100 := by omega
        rw [percentile_interior l p1 hne h1i (by omega),
            percentile_interior l p2 hne (by omega) h2i]
        apply goTrunc_mono
        obtain ⟨hx0, _⟩ := percentileIndex_bounds l p1 hne h1i (by omega)
        obtain ⟨_, hyle⟩ := percentileIndex_bounds l p2 hne (by omega) h2i
        refine interpVal_mono hsort hne hx0 ?_ hyle
        have hp12 : (p1 : ℚ) ≤ (p2 : ℚ) := by exact_mod_cast h12
        have hn0 : (0 : ℚ) ≤ (l.length : ℚ) - 1 := by
          have h1 : (1 : ℚ) ≤ (l.length : ℚ) := by exact_mod_cast hlen
          linarith
        exact (div_le_div_right (by norm_num : (0 : ℚ) < 100)).mpr
          (mul_le_mul_of_nonneg_left hp12 hn0)
  · intro p hp0 hp100
    obtain ⟨hx0, hxle⟩ := percentileIndex_bounds l p hne hp0 hp100
    rw [percentile_interior l p hne hp0 hp100]
    set x := ((l.length : ℚ) - 1) * (p : ℚ) / 100 with hxdef
    have hf0 : 0 ≤ ⌊x⌋ := Int.le_floor.mpr (by exact_mod_cast hx0)
    congr 1
    unfold interpVal
    split
    · rename_i hcond
      have hfle : ⌊x⌋ ≤ (l.length : Int) - 1 := floor_le_cast_sub_one (by exact_mod_cast hxle)
      have hfeq : ⌊x⌋ = (l.length : Int) - 1 := by omega
      have h3 : ((((l.length : Int) - 1 : Int)) : ℚ) = (l.length : ℚ) - 1 := by
        push_cast
        ring
      have hxeq : x = (((l.length : Int) - 1 : Int) : ℚ) := by
        have h1 : (⌊x⌋ : ℚ) ≤ x := Int.floor_le x
        rw [hfeq] at h1
        apply le_antisymm
        · rw [h3]
          exact hxle
        · exact h1
      rw [hxeq, Int.fract_intCast, Int.floor_intCast, Int.ceil_intCast]
      ring
    · rename_i hcond
      by_cases hfr : Int.fract x = 0
      · have hxq : x = (⌊x⌋ : ℚ) := by
          unfold Int.fract at hfr
          linarith
        have hceil : ⌈x⌉ = ⌊x⌋ := by
          rw [hxq, Int.ceil_intCast, Int.floor_intCast]
        rw [hfr, hceil]
        ring
      · have hflt : (⌊x⌋ : ℚ) < x := by
          rcases lt_or_eq_of_le (Int.floor_le x) with h | h
          · exact h
          · exact absurd (by unfold Int.fract; rw [h]; ring) hfr
        have hceil : ⌈x⌉ = ⌊x⌋ + 1 := by
          rw [Int.ceil_eq_iff]
          constructor
          · push_cast
            linarith
          · push_cast
            linarith [Int.lt_floor_add_one x]
        have htn : (⌊x⌋ + 1).toNat = ⌊x⌋.toNat + 1 := by omega
        rw [hceil, htn]
        ring

/-- C2 witness: the percentile properties applied at the concrete sorted
list `[1, 2, 3]`. -/
theorem percentile_spec_witness :
    (([1, 2, 3] : List Int) ≠ [] ∧ List.Sorted (· ≤ ·) ([1, 2, 3] : List Int))
  ∧ (percentile [1, 2, 3] 0 = ([1, 2, 3] : List Int).headI
    ∧ percentile [1, 2, 3] 100 = ([1, 2, 3] : List Int).getLastI
    ∧ (∀ p1 p2 : Int, p1 ≤ p2 →
        percentile [1, 2, 3] p1 ≤ percentile [1, 2, 3] p2)
    ∧ (∀ p : Int, 0 < p → p < 100 →
        percentile [1, 2, 3] p = goTrunc
          ((1 - Int.fract (((([1, 2, 3] : List Int).length : ℚ) - 1) * (p : ℚ) / 100))
              * (([1, 2, 3] : List Int).getI
                  (⌊((([1, 2, 3] : List Int).length : ℚ) - 1) * (p : ℚ) / 100⌋).toNat : ℚ)
            + Int.fract (((([1, 2, 3] : List Int).length : ℚ) - 1) * (p : ℚ) / 100)
              * (([1, 2, 3] : List Int).getI
                  (⌈((([1, 2, 3] : List Int).length : ℚ) - 1) * (p : ℚ) / 100⌉).toNat : ℚ)))) :=
  ⟨⟨by decide, by decide⟩, percentile_spec [1, 2, 3] (by decide) (by decide)⟩

/-- Response definitions declaring only a "200" response. -/
def responses200 : ResponsesDef := { codes := some [("200", {})] }

/-- Operation details carrying only the "200" response definition. -/
def od200 : OperationDetails := { responses := some responses200 }

/-- A plain 500 response. -/
def resp500 : HttpResponse := { statusCode := 500 }

/-- C4 witness: scenario with declared responses `{"200"}` and actual
status 500 — exactly one `status_code` error. -/
theorem validateResponse_status_matching_witness :
    (ValidateResponse (some resp500) (some od200)).1
      = [{ field := "status_code",
           message := "unexpected status code 500, not defined in OpenAPI spec" }] :=
  (validateResponse_status_matching responses200 500 resp500 od200).2 rfl rfl rfl

/-- A concrete operation used by the benchmark fixtures. -/
def opA : Operation := { path := "/a", method := "GET" }

/-- Benchmark environment whose operation-detail fetch always fails. -/
def envFail : BenchEnv :=
  { detailsErr := fun _ => some "path not found: /a"
    buildErr := fun _ => none
    exec := fun _ _ => ⟨1, 200, ""⟩
    elapsed := fun _ => 1000
    runElapsed := 1000 }

/-- C6 witness: with a failing detail fetch and two configured iterations
the synthesised entry counts two errors and a 100 percent error rate. -/
theorem benchmarkOperations_failure_isolation_witness :
    (benchmarkOperationsEntry { iterations := 2 } envFail opA).errorCount
        = ({ iterations := 2 } : Config).iterations
  ∧ (benchmarkOperationsEntry { iterations := 2 } envFail opA).errorRate = 100 :=
  (benchmarkOperations_failure_isolation { iterations := 2 } envFail [opA]).2.2
    opA (Or.inl (by simp [envFail]))

/-- C7 witness: on the fully unconstrained schema, generation succeeds. -/
theorem generateValue_precedence_witness :
    ∃ v c, GenerateValue envDraw0 (some schemaBare) 0 = (Except.ok v, c) :=
  (generateValue_precedence envDraw0 schemaBare 0).1

end Oas
